import Mathlib

/-!
Verification development for the Ghirbal safe-browsing engine.

The TypeScript source is embedded shallowly: pure classifier functions become
Lean functions on strings, the platform URL parser (WHATWG new URL) is
modelled by a simplified parser covering scheme, host, path and query,
global mutable caches become explicit parameters, and the event-driven
reload protocol becomes a step relation on an explicit state.  All string
operations are implemented on the underlying character lists so that every
definition evaluates inside the kernel.
-/

namespace Ghirbal

/-! ## String primitives modelling the JavaScript string operations -/

/-- Model of JS s.includes(pat) on char lists: pat occurs contiguously in s. -/
def listContains (s pat : List Char) : Bool :=
  match s with
  | [] => pat.isEmpty
  | _ :: rest => pat.isPrefixOf s || listContains rest pat

/-- Model of JS s.includes(pat) on strings. -/
def strContains (s pat : String) : Bool :=
  listContains s.data pat.data

/-- Model of JS s.startsWith(pat). -/
def jsStartsWith (s pat : String) : Bool :=
  pat.data.isPrefixOf s.data

/-- Model of JS s.endsWith(pat). -/
def jsEndsWith (s pat : String) : Bool :=
  pat.data.isSuffixOf s.data

/-- Model of JS s.substring(n) for ASCII strings. -/
def jsDrop (s : String) (n : Nat) : String :=
  String.mk (s.data.drop n)

/-- JS string length for the ASCII strings handled here. -/
def strLength (s : String) : Nat :=
  s.data.length

/-- The whitespace class of the JS trim and backslash-s. -/
def isJsSpace (c : Char) : Bool :=
  c = ' ' || c = '\t' || c = '\n' || c = '\r' || c = '\x0b' || c = '\x0c'

/-- Model of JS s.trim(). -/
def jsTrim (s : String) : String :=
  String.mk (((s.data.dropWhile isJsSpace).reverse.dropWhile isJsSpace).reverse)

/-- JS toLowerCase on one char, for the ASCII strings handled here. -/
def jsLowerChar (c : Char) : Char :=
  if 65 ≤ c.toNat && c.toNat ≤ 90 then Char.ofNat (c.toNat + 32) else c

/-- Model of JS s.toLowerCase() for the ASCII strings handled here. -/
def jsToLower (s : String) : String :=
  String.mk (s.data.map jsLowerChar)

/-- Split a char list on a separator char, as JS split with a one-char
separator. -/
def splitCharsOn (sep : Char) : List Char → List (List Char)
  | [] => [[]]
  | c :: rest =>
    if c = sep then [] :: splitCharsOn sep rest
    else
      match splitCharsOn sep rest with
      | [] => [[c]]
      | g :: gs => (c :: g) :: gs

/-- Model of JS s.split(sep) for a one-char separator. -/
def jsSplit (s : String) (sep : Char) : List String :=
  (splitCharsOn sep s.data).map String.mk

/-- Model of Array.prototype.join for strings. -/
def joinWith (sep : String) : List String → String
  | [] => ""
  | [x] => x
  | x :: rest => x ++ sep ++ joinWith sep rest

/-- ASCII letter, as in the source regex classes a-zA-Z. -/
def isAsciiAlpha (c : Char) : Bool :=
  (c ≥ 'a' && c ≤ 'z') || (c ≥ 'A' && c ≤ 'Z')

/-- ASCII letter or digit, the regex class a-zA-Z0-9. -/
def isAlnumChar (c : Char) : Bool :=
  isAsciiAlpha c || (c ≥ '0' && c ≤ '9')

/-- The regex character class used for domain bodies in the parsers. -/
def isDomainChar (c : Char) : Bool :=
  c = '-' || isAlnumChar c || c = '.' || c = '_'

/-! ## Model of the platform URL parser

The source calls the WHATWG new URL(...) constructor and reads hostname
(lowercased by the platform), pathname and search.  We model the parser for
http and https URLs: authority up to the first of / ? #, userinfo dropped
at the last @, port dropped at the first colon, hostname lowercased,
pathname defaulting to /, search kept with its leading question mark.
Percent-decoding and path normalization are not modelled; no claim in this
development depends on them. -/

structure Url where
  scheme : String
  hostname : String
  pathname : String
  search : String
deriving Repr, DecidableEq

/-- Split a char list at the first occurrence of a stop char; the stop char
stays at the head of the second component. -/
def takeUntil (stops : List Char) : List Char → List Char × List Char
  | [] => ([], [])
  | c :: rest =>
    if c ∈ stops then ([], c :: rest)
    else
      let p := takeUntil stops rest
      (c :: p.1, p.2)

/-- Part of the authority after the last at sign (userinfo removal). -/
def afterLastAt (l : List Char) : List Char :=
  (l.reverse.takeWhile (fun c => c ≠ '@')).reverse

def parseUrl (s : String) : Option Url :=
  let p : String × List Char :=
    if jsStartsWith s "https://" then ("https", s.data.drop 8)
    else if jsStartsWith s "http://" then ("http", s.data.drop 7)
    else ("", s.data)
  if p.1 = "" then none
  else
    let a := takeUntil ['/', '?', '#'] p.2
    let host := (takeUntil [':'] (afterLastAt a.1)).1
    if host.isEmpty then none
    else
      let b :=
        match a.2 with
        | '/' :: _ => takeUntil ['?', '#'] a.2
        | t => (([] : List Char), t)
      let path : List Char := if b.1.isEmpty then ['/'] else b.1
      let search : List Char :=
        match b.2 with
        | '?' :: qtail =>
          let q := (takeUntil ['#'] qtail).1
          if q.isEmpty then [] else '?' :: q
        | _ => []
      some { scheme := p.1, hostname := jsToLower (String.mk host),
             pathname := String.mk path, search := String.mk search }

/-- Model of new URL(url.startsWith("http") ? url : "https://" + url). -/
def toUrlInput (s : String) : String :=
  if jsStartsWith s "http" then s else "https://" ++ s

/-- Query pairs of a search string, as URLSearchParams iterates them:
split on ampersands, each segment split at its first equals sign.
Percent-decoding is not modelled. -/
def queryPairs (search : String) : List (String × String) :=
  if search = "" then []
  else
    (splitCharsOn '&' (search.data.drop 1)).filterMap fun kv =>
      if kv.isEmpty then none
      else
        let p := takeUntil ['='] kv
        match p.2 with
        | _ :: v => some (String.mk p.1, String.mk v)
        | [] => some (String.mk p.1, "")

/-- Model of urlObj.searchParams.get(key). -/
def getParam (u : Url) (key : String) : Option String :=
  ((queryPairs u.search).find? (fun p => p.1 == key)).map (fun p => p.2)

/-- URLSearchParams.set: replace the value at the first occurrence of the
key, drop later occurrences, append when absent. -/
def setPairs : List (String × String) → String → String → List (String × String)
  | [], k, v => [(k, v)]
  | q :: rest, k, v =>
    if q.1 = k then (k, v) :: rest.filter (fun r => r.1 ≠ k)
    else q :: setPairs rest k v

/-- Model of urlObj.searchParams.set(key, value) followed by reading back
urlObj.search. -/
def setParam (u : Url) (key value : String) : Url :=
  let pairs := setPairs (queryPairs u.search) key value
  { u with search := "?" ++ joinWith "&" (pairs.map (fun p => p.1 ++ "=" ++ p.2)) }

/-- Model of urlObj.toString() for the fields we track. -/
def urlToString (u : Url) : String :=
  u.scheme ++ "://" ++ u.hostname ++ u.pathname ++ u.search

/-! ## Auth and OAuth exemption (search_engine_restrictions.ts, isGoogleAuthUrl) -/

def authSubdomains : List String :=
  ["accounts.google", "myaccount.google", "oauth2.googleapis",
   "securetoken.googleapis", "identitytoolkit.googleapis", "gsi.gstatic",
   "iframerpc.gstatic", "content.googleapis", "sts.googleapis",
   "accounts.youtube"]

def authPathKeywords : List String :=
  ["/signin", "/oauth", "/auth", "/login", "/accounts", "/gsi",
   "/ServiceLogin", "/CheckCookie", "/AccountChooser", "/AddSession",
   "/Logout", "/challenge", "/speedbump", "/accountlookup",
   "/interstitial", "/embedded", "/authorization"]

def oauthParams : List String :=
  ["response_type=", "client_id=", "redirect_uri=", "state=", "scope=",
   "continue=", "authuser=", "oauth=", "token=", "access_token=", "code=",
   "grant_type=", "refresh_token="]

def isGoogleAuthUrl (url : String) : Bool :=
  match parseUrl (toUrlInput url) with
  | none => false
  | some u =>
    let hostname := jsToLower u.hostname
    let path := jsToLower u.pathname
    let search := jsToLower u.search
    authSubdomains.any (fun sub => strContains hostname sub) ||
    authPathKeywords.any (fun kw => strContains path kw) ||
    oauthParams.any (fun pr => strContains search pr)

/-! ## Google search domain, homepage and section rules -/

/-- Strip a single leading www. as in replace of the anchored www regex. -/
def stripWwwDot (h : String) : String :=
  if jsStartsWith h "www." then jsDrop h 4 else h

/-- The anchored regex for country TLDs: google dot, two or three lowercase
letters, optionally dot and two more lowercase letters. -/
def googleTldMatch (domain : String) : Bool :=
  if jsStartsWith domain "google." then
    match splitCharsOn '.' (domain.data.drop 7) with
    | [a] => (a.length = 2 || a.length = 3) && a.all (fun c => c ≥ 'a' && c ≤ 'z')
    | [a, b] => (a.length = 2 || a.length = 3) && b.length = 2 &&
        a.all (fun c => c ≥ 'a' && c ≤ 'z') && b.all (fun c => c ≥ 'a' && c ≤ 'z')
    | _ => false
  else false

def googleServicePrefixes : List String :=
  ["maps.", "drive.", "docs.", "sheets.", "slides.", "calendar.", "mail.",
   "meet.", "translate.", "play.", "accounts.", "myaccount.", "support.",
   "cloud.", "apis.", "fonts.", "firebase.", "storage."]

def isGoogleSearchDomain (url : String) : Bool :=
  match parseUrl (toUrlInput url) with
  | none => false
  | some u =>
    let hostname := jsToLower u.hostname
    let domain := stripWwwDot hostname
    if isGoogleAuthUrl url then false
    else if domain = "google.com" || googleTldMatch domain then
      if googleServicePrefixes.any (fun pre => jsStartsWith hostname pre) then false
      else true
    else false

def isGoogleHomePage (url : String) : Bool :=
  match parseUrl (toUrlInput url) with
  | none => false
  | some u =>
    let path := jsToLower u.pathname
    path = "/" || path = "/webhp"

def isBlockedGoogleSection (imagesBlocking : Bool) (url : String) : Bool :=
  match parseUrl (toUrlInput url) with
  | none => false
  | some u =>
    let domain := stripWwwDot (jsToLower u.hostname)
    if isGoogleAuthUrl url then false
    else if !strContains domain "google." then false
    else
      let path := jsToLower u.pathname
      let fullUrl := jsToLower url
      if imagesBlocking &&
         (strContains path "/imghp" || strContains path "/images" ||
          getParam u "tbm" = some "isch" || getParam u "udm" = some "2" ||
          strContains fullUrl "tbm=isch" || strContains fullUrl "udm=2") then true
      else if strContains path "/videohp" || strContains path "/videos" ||
          getParam u "tbm" = some "vid" || getParam u "udm" = some "7" ||
          strContains fullUrl "tbm=vid" || strContains fullUrl "udm=7" then true
      else if strContains path "/shorts" || getParam u "udm" = some "39" ||
          strContains fullUrl "tbm=shs" || strContains fullUrl "udm=39" then true
      else false

/-- enforceGoogleSafeSearch: parses the url directly (no scheme prepending),
leaves auth URLs alone, and sets safe=active on google domains. -/
def enforceGoogleSafeSearch (url : String) : String :=
  match parseUrl url with
  | none => url
  | some u =>
    let domain := jsToLower u.hostname
    if isGoogleAuthUrl url then url
    else if strContains domain "google." then urlToString (setParam u "safe" "active")
    else url

/-! ## Blocked domains, search engines, APK, Instagram (index.ts) -/

def extractDomain (url : String) : String :=
  match parseUrl (toUrlInput url) with
  | none => stripWwwDot url
  | some u => stripWwwDot u.hostname

/-- isBlockedDomain with the aggregate blocked-domain list made explicit
(the source reads it from the blocklist store). -/
def isBlockedDomain (allBlocked : List String) (url : String) : Bool :=
  if isGoogleAuthUrl url then false
  else
    let domain := jsToLower (extractDomain url)
    allBlocked.any fun blocked =>
      let b := jsToLower blocked
      domain = b || jsEndsWith domain ("." ++ b)

def blockedSearchEngines : List String := ["yandex.com", "yandex.ru", "duckduckgo.com"]

def isBlockedSearchEngine (url : String) : Bool :=
  let domain := jsToLower (extractDomain url)
  blockedSearchEngines.any fun blocked =>
    domain = blocked || jsEndsWith domain ("." ++ blocked)

def apkPatterns : List String :=
  ["/download.apk", "/app.apk", ".apk?", ".apk&", "/apk/", "download=apk",
   "type=apk", "file=apk", "format=apk", "/getapk", "/downloadapk",
   "/apk-download", "apkpure.com", "apkmirror.com", "apkcombo.com",
   "apk-dl.com", "aptoide.com"]

def isApkDownload (url : String) : Bool :=
  let lowerUrl := jsToLower url
  if jsEndsWith lowerUrl ".apk" || jsEndsWith lowerUrl ".xapk" ||
     jsEndsWith lowerUrl ".apkm" || jsEndsWith lowerUrl ".apkx" ||
     jsEndsWith lowerUrl ".apks" then true
  else if apkPatterns.any (fun pat => strContains lowerUrl pat) then true
  else if strContains lowerUrl "application/vnd.android.package-archive" ||
          strContains lowerUrl "application%2fvnd.android.package-archive" then true
  else false

def isBlockedInstagramUrl (url : String) : Bool :=
  match parseUrl (toUrlInput url) with
  | none => false
  | some u =>
    let domain := jsToLower u.hostname
    if !strContains domain "instagram.com" then false
    else
      let path := u.pathname
      if jsStartsWith path "/reel/" && strLength path > 6 then false
      else if jsStartsWith path "/p/" && strLength path > 3 then false
      else true

/-- isBlockedFacebookUrl returns false on every path of the source (the
allow branch is unconditional), including the sfbfi scheme and catch. -/
def isBlockedFacebookUrl (url : String) : Bool :=
  if jsStartsWith url "sfbfi://" then false
  else
    match parseUrl (toUrlInput url) with
    | none => false
    | some u =>
      let domain := jsToLower u.hostname
      let isFacebook := strContains domain "facebook.com" || strContains domain "fb.com" ||
        strContains domain "messenger.com" || strContains domain "fbsbx.com" ||
        strContains domain "fb.me"
      if !isFacebook then false else false

/-! ## Reddit filters (reddit_filters.ts) -/

def blockedRedditPaths : List String := ["/settings", "/search"]

/-- Subreddit char class a-z0-9_ with the case-insensitive flag. -/
def isSubredditChar (c : Char) : Bool :=
  isAsciiAlpha c || (c ≥ '0' && c ≤ '9') || c = '_'

/-- First match of the unanchored subreddit regex: the leftmost position
where slash r slash is followed by at least one subreddit char; the capture
is the maximal run of subreddit chars there. -/
def findSubreddit : List Char → Option (List Char)
  | [] => none
  | '/' :: rest =>
    (match rest with
     | 'r' :: '/' :: tail =>
       let run := tail.takeWhile isSubredditChar
       if run.isEmpty then findSubreddit rest else some run
     | _ => findSubreddit rest)
  | _ :: rest => findSubreddit rest

/-- isNsfwRedditUrl with the configured pattern and keyword lists made
explicit (the source reads them from environment configuration). -/
def isNsfwRedditUrl (nsfwPatterns wildcardKeywords : List String) (url : String) : Bool :=
  let lowercaseUrl := jsToLower url
  if !strContains lowercaseUrl "reddit.com" then false
  else if nsfwPatterns.any (fun pat => strContains lowercaseUrl (jsToLower pat)) then true
  else
    match findSubreddit lowercaseUrl.data with
    | some run =>
      let subredditName := jsToLower (String.mk run)
      wildcardKeywords.any (fun kw => strContains subredditName kw)
    | none => false

def isBlockedRedditPath (url : String) : Bool :=
  match parseUrl (toUrlInput url) with
  | none => false
  | some u =>
    let domain := jsToLower u.hostname
    let path := jsToLower u.pathname
    if !strContains domain "reddit.com" then false
    else blockedRedditPaths.any fun blockedPath =>
      path = blockedPath || jsStartsWith path (blockedPath ++ "/")

/-- enforceRedditSafe: parses the url directly, skips search paths, and
sets over18=0 on reddit domains. -/
def enforceRedditSafe (url : String) : String :=
  match parseUrl url with
  | none => url
  | some u =>
    let domain := jsToLower u.hostname
    if strContains domain "reddit.com" then
      if strContains u.pathname "/search" then url
      else urlToString (setParam u "over18" "0")
    else url

/-! ## processUrl (index.ts), the URL classification pipeline -/

structure UrlDecision where
  url : String
  blocked : Bool
  reason : Option String := none
  redirect : Option String := none
deriving Repr, DecidableEq

/-- The scheme regex: a letter, then letters digits plus dot dash, then a
colon. -/
def hasScheme (url : String) : Bool :=
  match url.data with
  | [] => false
  | c :: rest =>
    isAsciiAlpha c &&
      (match (rest.dropWhile fun d =>
          isAsciiAlpha d || (d ≥ '0' && d ≤ '9') || d = '+' || d = '.' || d = '-') with
       | ':' :: _ => true
       | _ => false)

/-- processUrl with all global configuration made explicit: the aggregate
blocked-domain list, the Google images blocking flag, and the Reddit NSFW
pattern and keyword lists. -/
def processUrl (allBlocked : List String) (imagesBlocking : Bool)
    (nsfwPatterns wildcardKeywords : List String) (inputUrl : String) : UrlDecision :=
  let url0 := jsTrim inputUrl
  let isWebScheme := jsStartsWith url0 "http://" || jsStartsWith url0 "https://"
  if hasScheme url0 && !isWebScheme then { url := url0, blocked := false }
  else
    let url := if hasScheme url0 then url0 else "https://" ++ url0
    if isApkDownload url then
      { url := url, blocked := true, reason := some "APK downloads are not allowed" }
    else if isBlockedDomain allBlocked url then
      { url := url, blocked := true, reason := some "This website is blocked for safety" }
    else if isBlockedSearchEngine url then
      { url := url, blocked := true,
        reason := some "This search engine is not allowed. Please use Google." }
    else if isBlockedGoogleSection imagesBlocking url then
      { url := url, blocked := true,
        reason := some "Google Images, Videos, and Shorts are blocked" }
    else if isNsfwRedditUrl nsfwPatterns wildcardKeywords url then
      { url := url, blocked := true,
        reason := some "This Reddit content is blocked for safety" }
    else if isBlockedRedditPath url then
      { url := url, blocked := true, reason := some "This Reddit page is blocked" }
    else if isBlockedInstagramUrl url then
      { url := url, blocked := true,
        reason := some "This Instagram content is blocked. Only reels and posts are allowed." }
    else if isBlockedFacebookUrl url then
      { url := url, blocked := true,
        reason := some "This Facebook content is blocked for safety" }
    else
      { url := enforceRedditSafe (enforceGoogleSafeSearch url), blocked := false }

/-! ## Filter-list parsers (Blocklist/parser.ts)

The source accumulates domains in an insertion-ordered Set and returns
Array.from of it; we model that as a list with insert-if-absent.  The JS
regexes are reduced to equivalent direct character scans: since the regex
terminators are outside the domain character class, the greedy match is
exactly the maximal domain-char run. -/

/-- Set.add for insertion-ordered string sets. -/
def setAdd (acc : List String) (d : String) : List String :=
  if acc.contains d then acc else acc ++ [d]

/-- The anchored easylist domain pattern: after the double bar, a maximal
domain-char run that starts and ends alphanumeric, followed by one of the
given terminator chars. -/
def easyListCapture (terms : List Char) (t : List Char) : Option (List Char) :=
  let run := t.takeWhile isDomainChar
  match t.drop run.length with
  | c :: _ =>
    if c ∈ terms && run.length ≥ 2 &&
       (match run with | r :: _ => isAlnumChar r | [] => false) &&
       (match run.getLast? with | some r => isAlnumChar r | none => false)
    then some run else none
  | [] => none

/-- The anchored to-end easylist pattern: the whole remainder is a
domain-char string starting alphanumeric whose last dot is followed by at
least two ASCII letters. -/
def easyListBareMatch (t : List Char) : Bool :=
  (match t with | c :: _ => isAlnumChar c | [] => false) &&
  t.all isDomainChar &&
  (let tail := (t.reverse.takeWhile (fun c => c ≠ '.')).reverse
   t.contains '.' && tail.length ≥ 2 && tail.all isAsciiAlpha &&
   t.length ≥ tail.length + 2)

/-- Domain contributed by one trimmed easylist line, mirroring the
continue-ladder of parseEasyListFormat. -/
def easyListLineDomain (line : String) : Option String :=
  if line = "" then none
  else if jsStartsWith line "!" || jsStartsWith line "[" then none
  else if jsStartsWith line "@@" then none
  else if strContains line "##" || strContains line "#@#" || strContains line "#?#" then none
  else if jsStartsWith line "/" && jsEndsWith line "/" then none
  else if jsStartsWith line "||" then
    let t := line.data.drop 2
    match easyListCapture ['^', '/', '$'] t with
    | some run =>
      let domain := jsToLower (String.mk run)
      if !strContains domain "*" && strContains domain "." then some domain else none
    | none =>
      if easyListBareMatch t then
        let domain := jsToLower (String.mk t)
        if !strContains domain "*" then some domain else none
      else
        match easyListCapture ['$'] t with
        | some run =>
          let domain := jsToLower (String.mk run)
          if !strContains domain "*" && strContains domain "." then some domain else none
        | none => none
  else none

/-- The common loop shape of the three parsers: split on newlines, trim
each line, accumulate the domain the line contributes into the set. -/
def runLineParse (f : String → Option String) (content : String) : List String :=
  (jsSplit content '\n').foldl (fun acc rawLine =>
    match f (jsTrim rawLine) with
    | some d => setAdd acc d
    | none => acc) []

def parseEasyListFormat (content : String) : List String :=
  runLineParse easyListLineDomain content

/-- AdGuard format is parsed with the easylist parser. -/
def parseAdGuardFormat (content : String) : List String :=
  parseEasyListFormat content

/-- The anchored domain-list regex: alphanumeric, then domain chars, then a
dot and at least two ASCII letters to the end. -/
def domainsLineMatch (t : List Char) : Bool :=
  (match t with | c :: _ => isAlnumChar c | [] => false) &&
  t.all isDomainChar &&
  (let tail := (t.reverse.takeWhile (fun c => c ≠ '.')).reverse
   t.contains '.' && tail.length ≥ 2 && tail.all isAsciiAlpha &&
   t.length ≥ tail.length + 2)

def domainsLineDomain (line : String) : Option String :=
  if line = "" || jsStartsWith line "#" || jsStartsWith line "!" then none
  else if jsStartsWith line "||" || strContains line "##" || jsStartsWith line "@@" then none
  else if domainsLineMatch line.data then some (jsToLower line) else none

def parseDomainsFormat (content : String) : List String :=
  runLineParse domainsLineDomain content

/-- Hosts-file line: one of the two localhost IPs, whitespace, then a
domain-char run starting and ending alphanumeric reaching the end. -/
def hostsLineDomain (line : String) : Option String :=
  if line = "" || jsStartsWith line "#" then none
  else
    let t :=
      if jsStartsWith line "0.0.0.0" then some (line.data.drop 7)
      else if jsStartsWith line "127.0.0.1" then some (line.data.drop 9)
      else none
    match t with
    | none => none
    | some u =>
      let sp := u.takeWhile isJsSpace
      let rest := u.drop sp.length
      if sp.isEmpty then none
      else if rest.length ≥ 2 && rest.all isDomainChar &&
          (match rest with | c :: _ => isAlnumChar c | [] => false) &&
          (match rest.getLast? with | some c => isAlnumChar c | none => false) then
        let domain := jsToLower (String.mk rest)
        if domain ≠ "localhost" && domain ≠ "localhost.localdomain" &&
           strContains domain "." then some domain else none
      else none

def parseHostsFormat (content : String) : List String :=
  runLineParse hostsLineDomain content

inductive BlocklistFormat where
  | easylist | adguard | hosts | domains
deriving Repr, DecidableEq

/-- Auto-detection looks at the first twenty lines joined back together. -/
def parseBlocklistContent (content : String) (formatHint : Option BlocklistFormat) : List String :=
  match formatHint with
  | some .easylist => parseEasyListFormat content
  | some .adguard => parseAdGuardFormat content
  | some .hosts => parseHostsFormat content
  | some .domains => parseDomainsFormat content
  | none =>
    let firstLineList := (jsSplit content '\n').take 20
    let firstLines := joinWith "\n" firstLineList
    if strContains firstLines "[Adblock" || strContains firstLines "! Title:" then
      parseEasyListFormat content
    else if firstLineList.any (fun line =>
        ((jsStartsWith line "0.0.0.0" && !(line.data.drop 7).isEmpty &&
            isJsSpace ((line.data.drop 7).headD ' ')) ||
         (jsStartsWith line "127.0.0.1" && !(line.data.drop 9).isEmpty &&
            isJsSpace ((line.data.drop 9).headD ' ')))) then
      parseHostsFormat content
    else if strContains firstLines "||" && strContains firstLines "^" then
      parseEasyListFormat content
    else parseDomainsFormat content

/-! ## Blocklist store (Blocklist/blocklist.ts)

The module-level Map caches become association lists that keep insertion
order, and the loop of initializeBlocklists that folds the settled fetch
results into the external cache becomes an explicit fold.  fetchBlocklist
returns the parsed domains and catches every failure as an empty list, so
a fetch result is just the (possibly empty) domain list. -/

/-- Map.set on an insertion-ordered association list. -/
def mapSet : List (String × List String) → String → List String → List (String × List String)
  | [], id, ds => [(id, ds)]
  | e :: rest, id, ds =>
    if e.1 = id then (id, ds) :: rest else e :: mapSet rest id ds

/-- The update loop of initializeBlocklists over the settled fetch results:
only fulfilled results with a nonempty domain list replace the cached entry
for their endpoint; failed fetches arrive as empty lists and leave the
cache untouched. -/
def updateCachesWithResults (cache : List (String × List String))
    (results : List (String × List String)) : List (String × List String) :=
  results.foldl (fun c r => if r.2.length > 0 then mapSet c r.1 r.2 else c) cache

/-- Set.add fold used by getExternalAndLocalDomains. -/
def addAllDomains (acc : List String) (ds : List String) : List String :=
  ds.foldl setAdd acc

/-- getExternalAndLocalDomains: the union of every cached external list,
every cached local list and the bundled domains, in insertion order. -/
def getExternalAndLocalDomains (external localCache : List (String × List String))
    (bundled : List String) : List String :=
  let s1 := external.foldl (fun a p => addAllDomains a p.2) []
  let s2 := localCache.foldl (fun a p => addAllDomains a p.2) s1
  addAllDomains s2 bundled

/-! ## Permission gatekeeper (BrowserScreen.tsx) -/

/-- normalizeHostname: empty and unknown pass through, a single leading
www. is dropped. -/
def normalizeHostname (host : String) : String :=
  if host = "" || host = "unknown" then host
  else if jsStartsWith host "www." then jsDrop host 4 else host

/-- askToRemember for one capability: the persisted site list gains the
normalized hostname when absent. -/
def askToRemember (sites : List String) (hostname : String) : List String :=
  let normalized := normalizeHostname hostname
  if sites.contains normalized then sites else sites ++ [normalized]

/-- removePersistedPermission for one capability: the persisted site list
is filtered against the raw hostname (the source does not normalize here). -/
def removePersistedPermission (sites : List String) (hostname : String) : List String :=
  sites.filter (fun site => site ≠ hostname)

/-- The lookup done at permission-request and load time: membership of the
normalized hostname in the persisted allowed set of one capability. -/
def isCapabilityAllowed (sites : List String) (hostname : String) : Bool :=
  sites.contains (normalizeHostname hostname)

def isMicCamResource (r : String) : Bool :=
  r = "android.webkit.resource.AUDIO_CAPTURE" || r = "microphone" ||
  r = "android.webkit.resource.VIDEO_CAPTURE" || r = "camera"

def isProtectedMediaResource (r : String) : Bool :=
  r = "android.webkit.resource.PROTECTED_MEDIA_ID" || r = "protected_media_id"

/-- Whether one requested resource trips the deniedAny flag of the
onPermissionRequest loop, given the three capability toggles. -/
def resourceDenied (micCamAllowed gpsAllowed notificationsAllowed : Bool) (r : String) : Bool :=
  if isMicCamResource r then !micCamAllowed
  else if r = "notifications" then !notificationsAllowed
  else if r = "geolocation" then !gpsAllowed
  else if isProtectedMediaResource r then false
  else true

inductive PermissionDecision where
  | deny
  | grant (granted : List String)
deriving Repr, DecidableEq

/-- onPermissionRequest: the batch decision over the requested resources,
with the three persisted allowed-site sets made explicit.  The loop pushes
every non-denied resource and then denies the whole batch when any
resource was denied. -/
def decidePermissionRequest (micCamSites gpsSites notificationSites : List String)
    (requestHostname : String) (resources : List String) : PermissionDecision :=
  let normalized := normalizeHostname requestHostname
  let micCamAllowed := micCamSites.contains normalized
  let gpsAllowed := gpsSites.contains normalized
  let notificationsAllowed := notificationSites.contains normalized
  let toGrant := resources.filter (fun r => !resourceDenied micCamAllowed gpsAllowed notificationsAllowed r)
  if resources.any (resourceDenied micCamAllowed gpsAllowed notificationsAllowed) then
    .deny
  else
    .grant toGrant

/-! ## Google-domain navigation policy (handleNavigationStateChange) -/

/-- isReferrerFromSafeSearch on an optional referrer. -/
def isReferrerFromSafeSearch (referrerUrl : Option String) : Bool :=
  match referrerUrl with
  | none => false
  | some r =>
    match parseUrl (toUrlInput r) with
    | none => false
    | some u => stripWwwDot (jsToLower u.hostname) = "safesearchengine.com"

/-- checkGoogleUrlAuthorization: exact session match, or a nonempty q
query parameter shared with some already-authorized URL. -/
def checkGoogleUrlAuthorization (authorized : List String) (targetUrl : String) : Bool :=
  if authorized.contains targetUrl then true
  else
    match parseUrl targetUrl with
    | none => false
    | some t =>
      match getParam t "q" with
      | none => false
      | some q =>
        if q = "" then false
        else authorized.any fun authUrl =>
          match parseUrl authUrl with
          | none => false
          | some au => getParam au "q" = some q

/-- The outcome of the Google-access section of handleNavigationStateChange
for one navigation event. -/
inductive NavAction where
  | redirectHome
  | stopLoad
  | rewrite (u : String)
  | allowRecord
  | fallthrough
deriving Repr, DecidableEq

/-- The Google-access policy of handleNavigationStateChange, lines 1169 to
1244 of BrowserScreen.tsx: referrer is the active tab URL when present,
authorized is the session set of authorized Google URLs. -/
def googleNavDecision (imagesBlocking : Bool) (authorized : List String)
    (referrer : Option String) (target : String) : NavAction :=
  let referrerAuth := match referrer with
    | some r => isGoogleAuthUrl r
    | none => false
  if isGoogleSearchDomain target && !isGoogleAuthUrl target && !referrerAuth then
    let alreadyOnGoogle := match referrer with
      | some r => isGoogleSearchDomain r || isGoogleAuthUrl r || strContains r "google.com"
      | none => false
    if isGoogleHomePage target then .redirectHome
    else if isBlockedGoogleSection imagesBlocking target then .stopLoad
    else if enforceGoogleSafeSearch target ≠ target then .rewrite (enforceGoogleSafeSearch target)
    else if alreadyOnGoogle || isReferrerFromSafeSearch referrer ||
        checkGoogleUrlAuthorization authorized target then .allowRecord
    else .redirectHome
  else .fallthrough

/-! ## Ordered stop-then-reload protocol (handleWebViewMessage and
handleLoadEnd)

State: the isLoadingRef flag and the ytPendingStopThenReloadRef flag.
Events: load start, load end, and the ytStopThenReload message.  Every
host action is recorded together with the value of isLoadingRef at the
moment it is issued. -/

structure ViewState where
  isLoading : Bool
  ytPending : Bool
deriving Repr, DecidableEq

inductive ViewEvent where
  | loadStart
  | loadEnd
  | ytStopThenReload
deriving Repr, DecidableEq

inductive HostAction where
  | stopLoad
  | reload
deriving Repr, DecidableEq

/-- One handler dispatch.  loadEnd clears isLoadingRef before the pending
reload fires; the ytStopThenReload handler stops loading, then reloads
immediately only when isLoadingRef is already false, otherwise it leaves
the pending flag set for the load-end callback. -/
def viewStep : ViewState → ViewEvent → ViewState × List (Bool × HostAction)
  | s, .loadStart => ({ s with isLoading := true }, [])
  | s, .loadEnd =>
    if s.ytPending then ({ isLoading := false, ytPending := false }, [(false, .reload)])
    else ({ s with isLoading := false }, [])
  | s, .ytStopThenReload =>
    if s.isLoading then ({ s with ytPending := true }, [(true, .stopLoad)])
    else ({ s with ytPending := false }, [(false, .stopLoad), (false, .reload)])

/-- The action log of a whole event sequence. -/
def viewRun : ViewState → List ViewEvent → List (Bool × HostAction)
  | _, [] => []
  | s, e :: es => (viewStep s e).2 ++ viewRun (viewStep s e).1 es

/-- The initial state: nothing loading, no pending reload. -/
def initialViewState : ViewState := { isLoading := false, ytPending := false }

/-! ## Helper lemmas -/

theorem toNat_ofNatAux (n : Nat) (h : n.isValidChar) : (Char.ofNatAux n h).toNat = n := by
  simp [Char.ofNatAux, Char.toNat, UInt32.toNat]

theorem jsLowerChar_idem (c : Char) : jsLowerChar (jsLowerChar c) = jsLowerChar c := by
  unfold jsLowerChar
  split
  · next h =>
    simp only [Bool.and_eq_true, decide_eq_true_eq] at h
    have hv : (c.toNat + 32).isValidChar := by left; omega
    have h2 : (Char.ofNat (c.toNat + 32)).toNat = c.toNat + 32 := by
      simp [Char.ofNat, hv, toNat_ofNatAux]
    rw [if_neg]
    simp only [Bool.and_eq_true, decide_eq_true_eq, h2]
    omega
  · rfl

theorem jsToLower_idem (s : String) : jsToLower (jsToLower s) = jsToLower s := by
  unfold jsToLower
  congr 1
  show (s.data.map jsLowerChar).map jsLowerChar = s.data.map jsLowerChar
  rw [List.map_map]
  exact List.map_congr_left (fun c _ => jsLowerChar_idem c)

theorem mem_setAdd {acc : List String} {d x : String} :
    x ∈ setAdd acc d ↔ x ∈ acc ∨ x = d := by
  unfold setAdd
  split <;> next h => simp_all [List.elem_iff]

theorem setAdd_nodup {acc : List String} {d : String} (h : acc.Nodup) : (setAdd acc d).Nodup := by
  unfold setAdd
  split
  · exact h
  · next hc =>
    simp only [List.elem_iff] at hc
    simpa [List.nodup_append, h, List.disjoint_left] using hc

theorem runLineParse_aux_nodup (f : String → Option String) (lines : List String)
    (acc : List String) (h : acc.Nodup) :
    (lines.foldl (fun a rawLine =>
      match f (jsTrim rawLine) with
      | some d => setAdd a d
      | none => a) acc).Nodup := by
  induction lines generalizing acc with
  | nil => exact h
  | cons line rest ih =>
    simp only [List.foldl_cons]
    cases hf : f (jsTrim line) with
    | none => exact ih acc h
    | some d => exact ih (setAdd acc d) (setAdd_nodup h)

theorem runLineParse_aux_mem (f : String → Option String) (lines : List String)
    (acc : List String) (d : String)
    (h : d ∈ lines.foldl (fun a rawLine =>
      match f (jsTrim rawLine) with
      | some e => setAdd a e
      | none => a) acc) :
    d ∈ acc ∨ ∃ line, f line = some d := by
  induction lines generalizing acc with
  | nil => exact Or.inl h
  | cons line rest ih =>
    simp only [List.foldl_cons] at h
    cases hf : f (jsTrim line) with
    | none =>
      rw [hf] at h
      exact ih acc h
    | some e =>
      rw [hf] at h
      rcases ih (setAdd acc e) h with hd | hd
      · rcases mem_setAdd.mp hd with hd | rfl
        · exact Or.inl hd
        · exact Or.inr ⟨jsTrim line, hf⟩
      · exact Or.inr hd

theorem runLineParse_nodup (f : String → Option String) (content : String) :
    (runLineParse f content).Nodup :=
  runLineParse_aux_nodup f _ [] List.nodup_nil

theorem runLineParse_mem {f : String → Option String} {content : String} {d : String}
    (h : d ∈ runLineParse f content) : ∃ line, f line = some d := by
  rcases runLineParse_aux_mem f _ [] d h with hd | hd
  · simp at hd
  · exact hd

theorem easyListLineDomain_lower {line d : String}
    (h : easyListLineDomain line = some d) : jsToLower d = d := by
  unfold easyListLineDomain at h
  repeat' split at h
  all_goals try simp_all
  all_goals repeat' split at h
  all_goals try simp_all
  all_goals first
    | (rw [h.symm]; exact jsToLower_idem _)
    | (rw [h.2.2.2.symm]; exact jsToLower_idem _)
    | (rw [h.2.2.symm]; exact jsToLower_idem _)
    | (rw [h.2.symm]; exact jsToLower_idem _)
    | (rw [h.1.symm]; exact jsToLower_idem _)

theorem domainsLineDomain_lower {line d : String}
    (h : domainsLineDomain line = some d) : jsToLower d = d := by
  unfold domainsLineDomain at h
  repeat' split at h
  all_goals try simp_all
  all_goals repeat' split at h
  all_goals try simp_all
  all_goals first
    | (rw [h.symm]; exact jsToLower_idem _)
    | (rw [h.2.2.2.symm]; exact jsToLower_idem _)
    | (rw [h.2.2.symm]; exact jsToLower_idem _)
    | (rw [h.2.symm]; exact jsToLower_idem _)
    | (rw [h.1.symm]; exact jsToLower_idem _)

theorem hostsLineDomain_lower {line d : String}
    (h : hostsLineDomain line = some d) : jsToLower d = d := by
  unfold hostsLineDomain at h
  repeat' split at h
  all_goals try simp_all
  all_goals repeat' split at h
  all_goals try simp_all
  all_goals first
    | (rw [h.symm]; exact jsToLower_idem _)
    | (rw [h.2.2.2.symm]; exact jsToLower_idem _)
    | (rw [h.2.2.symm]; exact jsToLower_idem _)
    | (rw [h.2.symm]; exact jsToLower_idem _)
    | (rw [h.1.symm]; exact jsToLower_idem _)

/-! ## Claims -/

/-- C1, counterexample: the URL resolves to true under the auth-OAuth
exemption predicate (accounts.google hostname, signin path), yet the
classifier blocks it, because the APK rule does not consult the
exemption. -/
theorem c1_counterexample :
    isGoogleAuthUrl "https://accounts.google.com/signin/app.apk" = true ∧
    processUrl [] true [] [] "https://accounts.google.com/signin/app.apk" =
      { url := "https://accounts.google.com/signin/app.apk", blocked := true,
        reason := some "APK downloads are not allowed", redirect := none } := by
  decide

/-- C1, amended: the auth-OAuth exemption is consulted inside the
blocked-domain rule and the Google-section rule, and always wins there;
the APK, blocked-search-engine, Reddit and Instagram rules do not consult
it and may block an auth URL. -/
theorem c1_auth_exemption_scope (url : String) (allBlocked : List String)
    (imagesBlocking : Bool) (h : isGoogleAuthUrl url = true) :
    isBlockedDomain allBlocked url = false ∧
    isBlockedGoogleSection imagesBlocking url = false := by
  constructor
  · simp [isBlockedDomain, h]
  · unfold isBlockedGoogleSection
    cases hp : parseUrl (toUrlInput url) with
    | none => rfl
    | some u => simp [h]

theorem c1_auth_exemption_scope_witness :
    isBlockedDomain ["accounts.google.com"] "https://accounts.google.com/signin" = false ∧
    isBlockedGoogleSection true "https://accounts.google.com/signin" = false :=
  c1_auth_exemption_scope "https://accounts.google.com/signin"
    ["accounts.google.com"] true (by decide)

/-- C3, counterexample: the host of the URL equals a domain of the blocked
index, yet the domain rule does not block, because the URL matches the
auth-exemption predicate (signin path), which the claim omits from its
characterization. -/
theorem c3_counterexample :
    extractDomain "https://example.com/signin" = "example.com" ∧
    "example.com" ∈ ["example.com"] ∧
    isBlockedDomain ["example.com"] "https://example.com/signin" = false := by
  decide

/-- C3, amended: for non-auth URLs the domain rule blocks iff the host,
lowercased and stripped of a leading www., equals a lowercased index entry
or ends with a dot followed by one; auth-exempt URLs are never blocked by
the rule; the concrete sub.example.com, notexample.com, and uppercase
ADULT-EXAMPLE scenarios behave as claimed. -/
theorem c3_domain_suffix_matching (allBlocked : List String) (url : String) :
    (isBlockedDomain allBlocked url = true ↔
      (isGoogleAuthUrl url = false ∧
        ∃ blocked ∈ allBlocked,
          jsToLower (extractDomain url) = jsToLower blocked ∨
          jsEndsWith (jsToLower (extractDomain url)) ("." ++ jsToLower blocked) = true)) ∧
    (∀ imagesBlocking : Bool,
      (processUrl ["example.com"] imagesBlocking [] [] "https://sub.example.com/path").blocked = true ∧
      (processUrl ["example.com"] imagesBlocking [] [] "https://notexample.com").blocked = false ∧
      processUrl ["adult-example.com"] imagesBlocking [] [] "http://ADULT-EXAMPLE.com/page" =
        { url := "http://ADULT-EXAMPLE.com/page", blocked := true,
          reason := some "This website is blocked for safety", redirect := none }) := by
  constructor
  · unfold isBlockedDomain
    cases h : isGoogleAuthUrl url with
    | true => simp [h]
    | false => simp [h, List.any_eq_true]
  · intro imagesBlocking
    cases imagesBlocking <;> exact ⟨by decide, by decide, by decide⟩

/-- C7, counterexample: the hosts parser emits a domain that keeps its
leading www. prefix, contradicting the claim that no output carries one. -/
theorem c7_counterexample :
    parseHostsFormat "0.0.0.0 www.example.com" = ["www.example.com"] ∧
    jsStartsWith "www.example.com" "www." = true := by
  decide

/-- C7, amended: for every input and every format, hinted or auto-detected,
the parser output is deduplicated and lowercase (each domain is a fixed
point of lowercasing); the parsers are total and skip lines they cannot
use, but they never strip a www. prefix. -/
theorem c7_parser_output_normalized (content : String) (formatHint : Option BlocklistFormat) :
    (parseBlocklistContent content formatHint).Nodup ∧
    ∀ d ∈ parseBlocklistContent content formatHint, jsToLower d = d := by
  have hcases : parseBlocklistContent content formatHint = runLineParse easyListLineDomain content ∨
      parseBlocklistContent content formatHint = runLineParse hostsLineDomain content ∨
      parseBlocklistContent content formatHint = runLineParse domainsLineDomain content := by
    rcases formatHint with _ | f
    · simp only [parseBlocklistContent]
      repeat' split
      all_goals simp [parseEasyListFormat, parseHostsFormat, parseDomainsFormat]
    · cases f <;>
        simp [parseBlocklistContent, parseEasyListFormat, parseAdGuardFormat,
          parseHostsFormat, parseDomainsFormat]
  rcases hcases with hc | hc | hc <;> rw [hc]
  · exact ⟨runLineParse_nodup _ _, fun d hd => by
      obtain ⟨line, hline⟩ := runLineParse_mem hd
      exact easyListLineDomain_lower hline⟩
  · exact ⟨runLineParse_nodup _ _, fun d hd => by
      obtain ⟨line, hline⟩ := runLineParse_mem hd
      exact hostsLineDomain_lower hline⟩
  · exact ⟨runLineParse_nodup _ _, fun d hd => by
      obtain ⟨line, hline⟩ := runLineParse_mem hd
      exact domainsLineDomain_lower hline⟩

theorem c7_parser_output_normalized_witness :
    jsToLower "www.example.com" = "www.example.com" :=
  (c7_parser_output_normalized "0.0.0.0 www.example.com" (some .hosts)).2
    "www.example.com" (by decide)

/-- C8: at the failing input www.example.com, enabling stores the
normalized hostname example.com, but disabling filters on the raw
hostname www.example.com and removes nothing, so the capability remains
allowed after the enable-then-disable round trip. -/
theorem c8_roundtrip_keeps_grant_at_www :
    askToRemember [] "www.example.com" = ["example.com"] ∧
    removePersistedPermission (askToRemember [] "www.example.com") "www.example.com" =
      ["example.com"] ∧
    isCapabilityAllowed
      (removePersistedPermission (askToRemember [] "www.example.com") "www.example.com")
      "www.example.com" = true := by
  decide

/-! Helper lemmas for the navigation policy and gatekeeper claims -/

theorem isGoogleSearchDomain_of_auth {url : String} (h : isGoogleAuthUrl url = true) :
    isGoogleSearchDomain url = false := by
  unfold isGoogleSearchDomain
  cases hp : parseUrl (toUrlInput url) with
  | none => rfl
  | some u => simp [h]

/-- C4: a navigation whose target is the literal Google homepage on the
Google search domain is redirected to the approved homepage for every
session-authorization set and every non-auth referrer; when the referrer
is an auth URL, or the target itself is one, the Google policy takes no
action at all. -/
theorem c4_google_homepage_policy (imagesBlocking : Bool) (authorized : List String)
    (referrer : Option String) (target : String) :
    (isGoogleSearchDomain target = true → isGoogleHomePage target = true →
      (match referrer with | some r => isGoogleAuthUrl r | none => false) = false →
      googleNavDecision imagesBlocking authorized referrer target = NavAction.redirectHome) ∧
    ((match referrer with | some r => isGoogleAuthUrl r | none => false) = true →
      googleNavDecision imagesBlocking authorized referrer target = NavAction.fallthrough) ∧
    (isGoogleAuthUrl target = true →
      googleNavDecision imagesBlocking authorized referrer target = NavAction.fallthrough) := by
  refine ⟨?_, ?_, ?_⟩
  · intro hg hh hr
    have hat : isGoogleAuthUrl target = false := by
      cases ha : isGoogleAuthUrl target
      · rfl
      · rw [isGoogleSearchDomain_of_auth ha] at hg
        exact absurd hg (by simp)
    unfold googleNavDecision
    rw [hr]
    simp [hg, hh, hat]
  · intro hr
    unfold googleNavDecision
    rw [hr]
    simp
  · intro ha
    unfold googleNavDecision
    simp [isGoogleSearchDomain_of_auth ha]

theorem c4_google_homepage_policy_witness :
    googleNavDecision true [] (some "https://example.org/") "https://www.google.com/" =
      NavAction.redirectHome ∧
    googleNavDecision true [] (some "https://accounts.google.com/signin")
      "https://www.google.com/" = NavAction.fallthrough :=
  ⟨(c4_google_homepage_policy true [] (some "https://example.org/")
      "https://www.google.com/").1 (by decide) (by decide) (by decide),
   (c4_google_homepage_policy true [] (some "https://accounts.google.com/signin")
      "https://www.google.com/").2.1 (by decide)⟩

/-- C5: with images blocking off the Images-section example is not
blocked; the Videos example is blocked for both flag values; any parsed
non-auth Google URL with a Videos or Shorts indicator is blocked for
every flag value; and auth URLs are never blocked by the section rule. -/
theorem c5_google_section_independence :
    (isBlockedGoogleSection false "https://www.google.com/search?q=cats&tbm=isch" = false) ∧
    (∀ imagesBlocking : Bool,
      isBlockedGoogleSection imagesBlocking "https://www.google.com/search?q=cats&tbm=vid" = true ∧
      isBlockedGoogleSection imagesBlocking "https://www.google.com/shorts" = true) ∧
    (∀ (imagesBlocking : Bool) (url : String) (u : Url),
      parseUrl (toUrlInput url) = some u →
      isGoogleAuthUrl url = false →
      strContains (stripWwwDot (jsToLower u.hostname)) "google." = true →
      (getParam u "tbm" = some "vid" ∨ getParam u "udm" = some "7" ∨
       strContains (jsToLower u.pathname) "/videohp" = true ∨
       strContains (jsToLower u.pathname) "/videos" = true ∨
       strContains (jsToLower url) "tbm=vid" = true ∨
       strContains (jsToLower url) "udm=7" = true ∨
       strContains (jsToLower u.pathname) "/shorts" = true ∨
       getParam u "udm" = some "39" ∨
       strContains (jsToLower url) "tbm=shs" = true ∨
       strContains (jsToLower url) "udm=39" = true) →
      isBlockedGoogleSection imagesBlocking url = true) ∧
    (∀ (imagesBlocking : Bool) (url : String),
      isGoogleAuthUrl url = true → isBlockedGoogleSection imagesBlocking url = false) := by
  refine ⟨by decide, fun f => by cases f <;> exact ⟨by decide, by decide⟩, ?_, ?_⟩
  · intro f url u hp ha hg hind
    unfold isBlockedGoogleSection
    rw [hp]
    rcases hind with h | h | h | h | h | h | h | h | h | h <;>
      simp [ha, hg, h]
  · intro f url h
    unfold isBlockedGoogleSection
    cases hp : parseUrl (toUrlInput url) with
    | none => rfl
    | some u => simp [h]

theorem c5_google_section_independence_witness :
    isBlockedGoogleSection false "https://www.google.com/search?q=cats&tbm=vid" = true ∧
    isBlockedGoogleSection true "https://www.google.com/videohp" = true :=
  ⟨(c5_google_section_independence.2.1 false).1,
   c5_google_section_independence.2.2.1 true "https://www.google.com/videohp"
     { scheme := "https", hostname := "www.google.com", pathname := "/videohp", search := "" }
     (by decide) (by decide) (by decide)
     (Or.inr (Or.inr (Or.inl (by decide))))⟩

theorem viewRun_reload_flag (s : ViewState) (events : List ViewEvent) :
    ∀ p ∈ viewRun s events, p.2 = HostAction.reload → p.1 = false := by
  induction events generalizing s with
  | nil => intro p hp; simp [viewRun] at hp
  | cons e rest ih =>
    intro p hp hr
    obtain ⟨sl, sp⟩ := s
    simp only [viewRun, List.mem_append] at hp
    rcases hp with hp | hp
    · cases e <;> cases sl <;> cases sp <;> simp [viewStep] at hp <;>
        first
          | (rcases hp with rfl | rfl <;> simp_all)
          | (subst hp; simp_all)
          | simp_all
    · exact ih _ p hp hr

/-- C9: in every event sequence from the initial state, every reload the
handlers issue is issued while isLoadingRef is false; a stop-then-reload
request that arrives during a load only stops and defers, and the
load-end callback clears the loading flag and then performs the deferred
reload. -/
theorem c9_reload_ordering :
    (∀ (events : List ViewEvent), ∀ p ∈ viewRun initialViewState events,
      p.2 = HostAction.reload → p.1 = false) ∧
    (∀ s : ViewState, s.isLoading = true →
      viewStep s ViewEvent.ytStopThenReload =
        ({ s with ytPending := true }, [(true, HostAction.stopLoad)])) ∧
    (∀ s : ViewState, s.ytPending = true →
      viewStep s ViewEvent.loadEnd =
        ({ isLoading := false, ytPending := false }, [(false, HostAction.reload)])) := by
  refine ⟨fun events => viewRun_reload_flag _ events, ?_, ?_⟩
  · intro s h
    simp [viewStep, h]
  · intro s h
    simp [viewStep, h]

theorem c9_reload_ordering_witness :
    (false, HostAction.reload) ∈
      viewRun initialViewState
        [ViewEvent.loadStart, ViewEvent.ytStopThenReload, ViewEvent.loadEnd] ∧
    (false, HostAction.reload).1 = false :=
  ⟨by decide,
   c9_reload_ordering.1 [ViewEvent.loadStart, ViewEvent.ytStopThenReload, ViewEvent.loadEnd]
     (false, HostAction.reload) (by decide) rfl⟩

theorem normalizeHostname_www_append (h : String) :
    normalizeHostname ("www." ++ h) = h := by
  have hdata : ("www." ++ h).data = 'w' :: 'w' :: 'w' :: '.' :: h.data := by
    rw [String.data_append]
    rfl
  have hne1 : ("www." ++ h) ≠ "" := fun he => by
    have hd := congrArg String.data he
    rw [hdata] at hd
    simp at hd
  have hne2 : ("www." ++ h) ≠ "unknown" := fun he => by
    have hd := congrArg String.data he
    rw [hdata] at hd
    simp at hd
  have hpre : jsStartsWith ("www." ++ h) "www." = true := by
    unfold jsStartsWith
    rw [hdata]
    exact List.isPrefixOf_iff_prefix.mpr (List.prefix_append _ h.data)
  unfold normalizeHostname
  rw [if_neg (by simp [hne1, hne2]), if_pos hpre]
  unfold jsDrop
  rw [hdata]
  rfl

theorem normalizeHostname_of_not_www {host : String}
    (hw : jsStartsWith host "www." = false) : normalizeHostname host = host := by
  unfold normalizeHostname
  split
  · rfl
  · rw [if_neg (by simp [hw])]

/-- C10: a www-prefixed hostname and its bare form look up the same
persisted record; granting one hostname never changes the lookup of a
hostname with a different normalization; a grant for example.com does not
extend to sub.example.com; and the normalization strips only one www. -/
theorem c10_permission_lookup_exact (sites : List String) (host other : String) :
    (jsStartsWith host "www." = false →
      isCapabilityAllowed sites ("www." ++ host) = isCapabilityAllowed sites host) ∧
    (normalizeHostname other ≠ normalizeHostname host →
      isCapabilityAllowed (askToRemember sites other) host = isCapabilityAllowed sites host) ∧
    isCapabilityAllowed (askToRemember [] "example.com") "sub.example.com" = false ∧
    normalizeHostname "www.www.example.com" = "www.example.com" := by
  refine ⟨?_, ?_, by decide, by decide⟩
  · intro hw
    unfold isCapabilityAllowed
    rw [normalizeHostname_www_append, normalizeHostname_of_not_www hw]
  · intro hne
    unfold isCapabilityAllowed askToRemember
    show (if sites.contains (normalizeHostname other) = true then sites
          else sites ++ [normalizeHostname other]).contains (normalizeHostname host) =
        sites.contains (normalizeHostname host)
    split
    · rfl
    · rw [Bool.eq_iff_iff]
      simp only [List.elem_iff, List.mem_append, List.mem_singleton]
      constructor
      · rintro (hm | hm)
        · exact hm
        · exact (hne hm.symm).elim
      · exact Or.inl

theorem c10_permission_lookup_exact_witness :
    isCapabilityAllowed ["example.com"] ("www." ++ "example.com") =
      isCapabilityAllowed ["example.com"] "example.com" ∧
    isCapabilityAllowed (askToRemember [] "other.com") "example.com" =
      isCapabilityAllowed [] "example.com" :=
  ⟨(c10_permission_lookup_exact ["example.com"] "example.com" "x").1 (by decide),
   (c10_permission_lookup_exact [] "example.com" "other.com").2.1 (by decide)⟩


/-! Helper lemmas for the blocklist store claim -/

theorem mem_addAllDomains {acc ds : List String} {d : String} :
    d ∈ addAllDomains acc ds ↔ d ∈ acc ∨ d ∈ ds := by
  induction ds generalizing acc with
  | nil => simp [addAllDomains]
  | cons x rest ih =>
    show d ∈ addAllDomains (setAdd acc x) rest ↔ _
    rw [ih, mem_setAdd]
    simp only [List.mem_cons]
    tauto

theorem mem_foldl_addAll {entries : List (String × List String)} {init : List String}
    {d : String} :
    d ∈ entries.foldl (fun a p => addAllDomains a p.2) init ↔
      d ∈ init ∨ ∃ p ∈ entries, d ∈ p.2 := by
  induction entries generalizing init with
  | nil => simp
  | cons e rest ih =>
    show d ∈ List.foldl _ (addAllDomains init e.2) rest ↔ _
    rw [ih, mem_addAllDomains]
    simp only [List.mem_cons]
    constructor
    · rintro ((hd | hd) | ⟨p, hp, hd⟩)
      · exact Or.inl hd
      · exact Or.inr ⟨e, Or.inl rfl, hd⟩
      · exact Or.inr ⟨p, Or.inr hp, hd⟩
    · rintro (hd | ⟨p, hp | hp, hd⟩)
      · exact Or.inl (Or.inl hd)
      · exact Or.inl (Or.inr (hp ▸ hd))
      · exact Or.inr ⟨p, hp, hd⟩

theorem mem_getExternalAndLocalDomains {external localCache : List (String × List String)}
    {bundled : List String} {d : String} :
    d ∈ getExternalAndLocalDomains external localCache bundled ↔
      (∃ p ∈ external, d ∈ p.2) ∨ (∃ p ∈ localCache, d ∈ p.2) ∨ d ∈ bundled := by
  unfold getExternalAndLocalDomains
  rw [mem_addAllDomains, mem_foldl_addAll, mem_foldl_addAll]
  simp only [List.not_mem_nil, false_or]
  constructor
  · rintro ((he | hl) | hb)
    · exact Or.inl he
    · exact Or.inr (Or.inl hl)
    · exact Or.inr (Or.inr hb)
  · rintro (he | hl | hb)
    · exact Or.inl (Or.inl he)
    · exact Or.inl (Or.inr hl)
    · exact Or.inr hb

theorem mapSet_of_fresh {cache : List (String × List String)} {id : String}
    {ds : List String} (h : ∀ e ∈ cache, e.1 ≠ id) :
    mapSet cache id ds = cache ++ [(id, ds)] := by
  induction cache with
  | nil => rfl
  | cons e rest ih =>
    unfold mapSet
    rw [if_neg (h e (List.mem_cons_self e rest)),
      ih (fun x hx => h x (List.mem_cons_of_mem e hx))]
    rfl

/-- C6: holding the other sources fixed, folding in the fetch result of a
fresh source can only grow the aggregate domain set; a failed fetch
(which arrives as an empty domain list) leaves the cache, and hence the
aggregate, exactly as before, including any cached entry of that source;
and an empty result anywhere in the batch is simply skipped, leaving the
rest of the batch to apply. -/
theorem c6_blocklist_merge_monotone :
    (∀ (external localCache : List (String × List String)) (bundled : List String)
       (id : String) (ds : List String) (d : String),
      (∀ e ∈ external, e.1 ≠ id) →
      d ∈ getExternalAndLocalDomains external localCache bundled →
      d ∈ getExternalAndLocalDomains (updateCachesWithResults external [(id, ds)])
          localCache bundled) ∧
    (∀ (external : List (String × List String)) (id : String),
      updateCachesWithResults external [(id, [])] = external) ∧
    (∀ (external results₁ results₂ : List (String × List String)) (id : String),
      updateCachesWithResults external (results₁ ++ (id, []) :: results₂) =
        updateCachesWithResults external (results₁ ++ results₂)) := by
  refine ⟨?_, ?_, ?_⟩
  · intro external localCache bundled id ds d hfresh hd
    unfold updateCachesWithResults
    simp only [List.foldl_cons, List.foldl_nil]
    split
    · rw [mapSet_of_fresh hfresh]
      rw [mem_getExternalAndLocalDomains] at hd ⊢
      rcases hd with ⟨p, hp, hdp⟩ | hd
      · exact Or.inl ⟨p, List.mem_append_left _ hp, hdp⟩
      · exact Or.inr hd
    · exact hd
  · intro external id
    simp [updateCachesWithResults]
  · intro external results₁ results₂ id
    unfold updateCachesWithResults
    rw [List.foldl_append, List.foldl_append, List.foldl_cons]
    simp

theorem c6_blocklist_merge_monotone_witness :
    "a.com" ∈ getExternalAndLocalDomains
      (updateCachesWithResults [("s1", ["a.com"])] [("s2", ["b.com"])]) [] [] :=
  c6_blocklist_merge_monotone.1 [("s1", ["a.com"])] [] [] "s2" ["b.com"] "a.com"
    (by decide) (by decide)

theorem decidePermissionRequest_eq (micCamSites gpsSites notificationSites : List String)
    (requestHostname : String) (resources : List String) :
    decidePermissionRequest micCamSites gpsSites notificationSites requestHostname resources =
      if resources.any (resourceDenied
          (micCamSites.contains (normalizeHostname requestHostname))
          (gpsSites.contains (normalizeHostname requestHostname))
          (notificationSites.contains (normalizeHostname requestHostname))) then
        PermissionDecision.deny
      else
        PermissionDecision.grant (resources.filter (fun r => !resourceDenied
          (micCamSites.contains (normalizeHostname requestHostname))
          (gpsSites.contains (normalizeHostname requestHostname))
          (notificationSites.contains (normalizeHostname requestHostname)) r)) := rfl

/-- C2: the native permission decision denies the whole batch or grants
exactly the requested batch; it grants iff no requested capability is
denied by policy; a protected-media capability never trips a denial and
an all-protected-media batch is always granted; an unknown capability
always denies the batch; and for a hostname in none of the persisted
allowed sets every policy-gated capability in the batch denies it. -/
theorem c2_permission_batch_decision (micCamSites gpsSites notificationSites : List String)
    (requestHostname : String) (resources : List String) :
    (decidePermissionRequest micCamSites gpsSites notificationSites requestHostname resources =
        PermissionDecision.deny ∨
     decidePermissionRequest micCamSites gpsSites notificationSites requestHostname resources =
        PermissionDecision.grant resources) ∧
    (decidePermissionRequest micCamSites gpsSites notificationSites requestHostname resources =
        PermissionDecision.grant resources ↔
      ∀ r ∈ resources,
        resourceDenied (micCamSites.contains (normalizeHostname requestHostname))
          (gpsSites.contains (normalizeHostname requestHostname))
          (notificationSites.contains (normalizeHostname requestHostname)) r = false) ∧
    (∀ (micCamAllowed gpsAllowed notificationsAllowed : Bool) (r : String),
      isProtectedMediaResource r = true →
      resourceDenied micCamAllowed gpsAllowed notificationsAllowed r = false) ∧
    ((∀ r ∈ resources, isProtectedMediaResource r = true) →
      decidePermissionRequest micCamSites gpsSites notificationSites requestHostname resources =
        PermissionDecision.grant resources) ∧
    (∀ r ∈ resources,
      isMicCamResource r = false → r ≠ "notifications" → r ≠ "geolocation" →
      isProtectedMediaResource r = false →
      decidePermissionRequest micCamSites gpsSites notificationSites requestHostname resources =
        PermissionDecision.deny) ∧
    (micCamSites.contains (normalizeHostname requestHostname) = false →
     gpsSites.contains (normalizeHostname requestHostname) = false →
     notificationSites.contains (normalizeHostname requestHostname) = false →
     ∀ r ∈ resources,
       (isMicCamResource r = true ∨ r = "geolocation" ∨ r = "notifications") →
       decidePermissionRequest micCamSites gpsSites notificationSites requestHostname resources =
         PermissionDecision.deny) := by
  have hprot : ∀ (a b c : Bool) (r : String), isProtectedMediaResource r = true →
      resourceDenied a b c r = false := by
    intro a b c r hp
    simp only [isProtectedMediaResource, Bool.or_eq_true, decide_eq_true_eq] at hp
    rcases hp with rfl | rfl <;> rfl
  have hgrant : decidePermissionRequest micCamSites gpsSites notificationSites
        requestHostname resources = PermissionDecision.grant resources ↔
      ∀ r ∈ resources,
        resourceDenied (micCamSites.contains (normalizeHostname requestHostname))
          (gpsSites.contains (normalizeHostname requestHostname))
          (notificationSites.contains (normalizeHostname requestHostname)) r = false := by
    rw [decidePermissionRequest_eq]
    split
    · next hany =>
      simp only [List.any_eq_true] at hany
      obtain ⟨r, hr, hdr⟩ := hany
      constructor
      · intro hcontra
        exact absurd hcontra (by simp)
      · intro hall
        rw [hall r hr] at hdr
        exact absurd hdr (by simp)
    · next hany =>
      simp only [List.any_eq_true, not_exists] at hany
      push_neg at hany
      have hall : ∀ r ∈ resources,
          resourceDenied (micCamSites.contains (normalizeHostname requestHostname))
            (gpsSites.contains (normalizeHostname requestHostname))
            (notificationSites.contains (normalizeHostname requestHostname)) r = false := by
        intro r hr
        have := hany r hr
        simp only [Bool.not_eq_true] at this
        exact this
      constructor
      · intro _
        exact hall
      · intro _
        congr 1
        exact List.filter_eq_self.mpr (fun r hr => by rw [hall r hr]; rfl)
  have hdeny : ∀ r ∈ resources,
      resourceDenied (micCamSites.contains (normalizeHostname requestHostname))
        (gpsSites.contains (normalizeHostname requestHostname))
        (notificationSites.contains (normalizeHostname requestHostname)) r = true →
      decidePermissionRequest micCamSites gpsSites notificationSites requestHostname resources =
        PermissionDecision.deny := by
    intro r hr hdr
    rw [decidePermissionRequest_eq]
    rw [if_pos (List.any_eq_true.mpr ⟨r, hr, hdr⟩)]
  refine ⟨?_, hgrant, hprot, ?_, ?_, ?_⟩
  · by_cases hany : resources.any
        (resourceDenied (micCamSites.contains (normalizeHostname requestHostname))
          (gpsSites.contains (normalizeHostname requestHostname))
          (notificationSites.contains (normalizeHostname requestHostname))) = true
    · left
      rw [decidePermissionRequest_eq]
      rw [if_pos hany]
    · right
      rw [hgrant]
      intro r hr
      simp only [List.any_eq_true, not_exists] at hany
      push_neg at hany
      have := hany r hr
      simp only [Bool.not_eq_true] at this
      exact this
  · intro hall
    rw [hgrant]
    intro r hr
    exact hprot _ _ _ r (hall r hr)
  · intro r hr hmc hn hg hp
    refine hdeny r hr ?_
    unfold resourceDenied
    rw [hmc, if_neg (by simp), if_neg hn, if_neg hg, hp, if_neg (by simp)]
  · intro hm hg hn r hr hgated
    refine hdeny r hr ?_
    rcases hgated with hr1 | rfl | rfl
    · unfold resourceDenied
      rw [hr1, if_pos rfl, hm]
      rfl
    · show resourceDenied _ _ _ "geolocation" = true
      have hgeo : ∀ a b c : Bool, resourceDenied a b c "geolocation" = !b := fun a b c => rfl
      rw [hgeo, hg]
      rfl
    · show resourceDenied _ _ _ "notifications" = true
      have hnot : ∀ a b c : Bool, resourceDenied a b c "notifications" = !c := fun a b c => rfl
      rw [hnot, hn]
      rfl

theorem c2_permission_batch_decision_witness :
    decidePermissionRequest [] [] [] "nosuch.example"
      ["microphone", "geolocation"] = PermissionDecision.deny ∧
    decidePermissionRequest [] [] [] "x.com"
      ["android.webkit.resource.PROTECTED_MEDIA_ID"] =
      PermissionDecision.grant ["android.webkit.resource.PROTECTED_MEDIA_ID"] :=
  ⟨(c2_permission_batch_decision [] [] [] "nosuch.example"
      ["microphone", "geolocation"]).2.2.2.2.2 (by decide) (by decide) (by decide)
      "geolocation" (by decide) (Or.inr (Or.inl rfl)),
   (c2_permission_batch_decision [] [] [] "x.com"
      ["android.webkit.resource.PROTECTED_MEDIA_ID"]).2.2.2.1
      (by decide)⟩

end Ghirbal

